import Mathlib

/-!
Verification development for the msk-match trial-matching pipeline.

This file gives a shallow embedding of the criterion-processing state machine
of `src/trialmatcher`: the `Criterion` record and its branch-merge reducer
(`utils/schemas.py`), the rule-based final determination
(`langgraph/node_make_final_determination.py`), the bucket-advancing node
(`langgraph/node_update_current_criterion.py`), the vacuous/human-review
pre-pass of `langgraph/langgraph_main.py`, the persisted-result sort of
`langgraph/node_save_results.py`, the multi-expert routing fallback of
`langgraph/construct_graph.py`, the exponential-backoff retry wrapper of
`utils/retry_with_backoff.py`, and the append-only result store of
`utils/redis_manager.py`.

Python dicts are embedded as insertion-ordered association lists
(`List (String × String)`); dict equality is extensional map equality and
`a | b` is `dictUnion a b` below.  Optional values are `Option`, and code
paths that raise in Python are modelled with `Except`/`Option` results.
-/

namespace TrialMatcher

/-- A retrieved evidence snippet (langchain `Document`): only the fields the
reducer touches are kept.  `Document.id` is `Optional[str]` in langchain. -/
structure Document where
  id : Option String
  page_content : String
deriving DecidableEq, Repr

/-- One eligibility criterion, from `utils/schemas.py` (`class Criterion`).
`criterion_type` and `determination` are the literal strings of the source;
`explanation` is a Python dict `{agent: explanation}` embedded as an
insertion-ordered association list. -/
structure Criterion where
  id : String
  criterion_text : String
  criterion_type : String
  vacuous : Bool
  requires_human_review : Bool
  determination : Option String
  explanation : Option (List (String × String))
  answered_by : Option (List String)
  rag_docs : Option (List Document)
deriving DecidableEq, Repr

/-- Python truthiness of an `Optional[dict]`: `None` and the empty dict are
falsy, a non-empty dict is truthy. -/
def pyTruthy (d : Option (List (String × String))) : Bool :=
  match d with
  | none => false
  | some l => !l.isEmpty

/-- Python dict equality (`==`): extensional equality of the two key-value
maps, irrespective of insertion order. -/
def dictBeq (a b : List (String × String)) : Bool :=
  a.all (fun kv => b.lookup kv.1 == some kv.2) &&
    b.all (fun kv => a.lookup kv.1 == some kv.2)

/-- Python `==` on `Optional[dict]` values. -/
def optDictBeq (a b : Option (List (String × String))) : Bool :=
  match a, b with
  | none, none => true
  | some a, some b => dictBeq a b
  | _, _ => false

/-- Python dict union `a | b`: keys of `a` in their order (with the value
from `b` when the key also occurs in `b`), followed by the keys of `b` that
do not occur in `a`, in their order. -/
def dictUnion (a b : List (String × String)) : List (String × String) :=
  a.map (fun kv =>
      match b.lookup kv.1 with
      | some v => (kv.1, v)
      | none => kv)
    ++ b.filter (fun kv => (a.lookup kv.1).isNone)

/-- Exceptions raised by `active_criterion_reducer`: `typeErr` models the
`TypeError` from iterating a `None` `rag_docs`, `valueErr` models the
explicit `raise ValueError("Shouldn't get here")`. -/
inductive PyErr where
  | typeErr
  | valueErr
deriving DecidableEq, Repr

/-- `active_criterion_reducer` from `utils/schemas.py`.  The langgraph channel
calls it with the current active criterion and an update fragment.  Python's
`if update and current.id == update.id` falls to the else-branch (returning
`update`) when `update` is `None`; when `update` is truthy, equal ids combine
the fragments and different ids replace the current criterion wholesale. -/
def active_criterion_reducer (current : Criterion) (update : Option Criterion) :
    Except PyErr (Option Criterion) :=
  match update with
  | none => .ok none
  | some upd =>
    if current.id = upd.id then
      if optDictBeq current.explanation upd.explanation then .ok (some current)
      else if pyTruthy current.explanation && upd.explanation.isNone then .ok (some current)
      else if pyTruthy upd.explanation && current.explanation.isNone then .ok (some upd)
      else if pyTruthy current.explanation && pyTruthy upd.explanation then
        match current.explanation, upd.explanation, current.rag_docs, upd.rag_docs with
        | some cexp, some uexp, some cdocs, some udocs =>
          let current_rag_ids := cdocs.map (fun doc => doc.id)
          let update_rag_docs := udocs.filter (fun doc => !(current_rag_ids.contains doc.id))
          .ok (some { current with
            explanation := some (dictUnion cexp uexp),
            rag_docs := some (cdocs ++ update_rag_docs) })
        | _, _, _, _ => .error .typeErr
      else .error .valueErr
    else .ok (some upd)

/-- The run state of one (patient, trial) assessment: the fields of
`TrialMatcherState` (`utils/schemas.py`) that the verified nodes read or
write. -/
structure TrialMatcherState where
  trial_id : String
  mrn : String
  final_determination : Option String
  uncompleted_criteria : List Criterion
  active_criterion : Option Criterion
  n_total_criteria : Nat
  completed_criteria : List Criterion
deriving DecidableEq, Repr

/-- The criterion-scanning loop of `final_determination_rule_based`:
criteria whose determination is "unable to determine" are skipped; an
inclusion criterion that is "not met" or an exclusion criterion that is
"met" returns "ineligible" immediately; when the scan falls through the
verdict is "eligible". -/
def rule_based_scan : List Criterion → String
  | [] => "eligible"
  | crit :: rest =>
    if crit.determination == some "unable to determine" then rule_based_scan rest
    else if crit.criterion_type == "inclusion" && crit.determination == some "not met" then
      "ineligible"
    else if crit.criterion_type == "exclusion" && crit.determination == some "met" then
      "ineligible"
    else rule_based_scan rest

/-- `final_determination_rule_based` from
`langgraph/node_make_final_determination.py`: it first asserts that
`len(completed) + len(uncompleted) (+ 1 if active)` equals
`n_total_criteria` (an `AssertionError`, modelled as `none`, otherwise),
then writes the rule-based verdict into `final_determination`. -/
def final_determination_rule_based (state : TrialMatcherState) :
    Option TrialMatcherState :=
  let n := state.completed_criteria.length + state.uncompleted_criteria.length +
    (if state.active_criterion.isSome then 1 else 0)
  if n = state.n_total_criteria then
    some { state with final_determination := some (rule_based_scan state.completed_criteria) }
  else none

/-- The disqualification condition of the rule-based verdict: some completed
criterion is an inclusion criterion that is "not met" or an exclusion
criterion that is "met". -/
def blocksEligibility (crit : Criterion) : Prop :=
  (crit.criterion_type = "inclusion" ∧ crit.determination = some "not met") ∨
    (crit.criterion_type = "exclusion" ∧ crit.determination = some "met")

instance (crit : Criterion) : Decidable (blocksEligibility crit) := by
  unfold blocksEligibility; infer_instance

/-- The bucket part of the run state, as mutated by the criterion loop.
`completed_criteria` holds `Option Criterion` entries because
`update_current_criterion` appends `state.active_criterion` (an
`Optional[Criterion]`) verbatim. -/
structure LoopState where
  uncompleted_criteria : List Criterion
  active_criterion : Option Criterion
  completed_criteria : List (Option Criterion)
  n_total_criteria : Nat
deriving DecidableEq, Repr

/-- `update_current_criterion` from
`langgraph/node_update_current_criterion.py`: append the active criterion to
the completed list and pop the head of the uncompleted queue into the active
slot (`pop(0)` is guarded by `if state.uncompleted_criteria`, so an empty
queue yields `None` and leaves the queue empty). -/
def update_current_criterion (state : LoopState) : LoopState :=
  { state with
    uncompleted_criteria := state.uncompleted_criteria.tail,
    active_criterion := state.uncompleted_criteria.head?,
    completed_criteria := state.completed_criteria ++ [state.active_criterion] }

/-- The vacuous / human-review pre-pass of `run_langgraph_trial_matcher`
(`langgraph/langgraph_main.py`): walk the trial criteria in order; a vacuous
criterion is moved to the completed list with determination "met" and
explanation `{"rule": "Vacuous criterion"}`; otherwise a criterion requiring
human review is moved with determination "unable to determine" and
explanation `{"rule": "Requires human review"}`; all other criteria stay in
the uncompleted queue.  Returns (uncompleted, pre-completed), both in the
original relative order, matching the iterate-over-a-copy/remove/append loop
of the source. -/
def prePass : List Criterion → List Criterion × List Criterion
  | [] => ([], [])
  | c :: rest =>
    let p := prePass rest
    if c.vacuous then
      (p.1, { c with
        determination := some "met",
        explanation := some [("rule", "Vacuous criterion")] } :: p.2)
    else if c.requires_human_review then
      (p.1, { c with
        determination := some "unable to determine",
        explanation := some [("rule", "Requires human review")] } :: p.2)
    else (c :: p.1, p.2)

/-- Initialization of the run state in `run_langgraph_trial_matcher`: run the
pre-pass, assert `len(initial_uncomplete) + len(initial_complete) ==
n_total_criteria` (`none` models the `AssertionError`), then pop the first
uncompleted criterion into the active slot (`initial_uncomplete.pop(0)`
raises `IndexError` on an empty queue, also modelled as `none`). -/
def initializePipeline (trial_criteria : List Criterion) : Option LoopState :=
  let n_total_criteria := trial_criteria.length
  let p := prePass trial_criteria
  if p.1.length + p.2.length = n_total_criteria then
    match p.1 with
    | [] => none
    | a :: rest =>
      some { uncompleted_criteria := rest
             active_criterion := some a
             completed_criteria := p.2.map some
             n_total_criteria := n_total_criteria }
  else none

/-- One stage transition of the criterion loop
(`langgraph/construct_graph.py`).  `coordinate` is `trial_coordinator`, which
only reads the state.  `consult` covers `consult_expert`, the expert nodes,
`principal_investigator` and `check_explanation`: each returns a fragment for
the same criterion id, which `active_criterion_reducer` merges into the
active slot, leaving the buckets untouched and the active criterion present.
`advance` is `update_current_criterion`; the graph reaches it only while a
criterion is active, because `check_if_done` routes to
`make_final_determination` as soon as the active slot is empty. -/
inductive LoopStep : LoopState → LoopState → Prop where
  | coordinate (s : LoopState) : LoopStep s s
  | consult (s : LoopState) (f : Criterion → Criterion) :
      LoopStep s { s with active_criterion := s.active_criterion.map f }
  | advance (s : LoopState) (h : s.active_criterion.isSome = true) :
      LoopStep s (update_current_criterion s)

/-- Run states reachable from a given state by pipeline stages. -/
inductive ReachableFrom (s0 : LoopState) : LoopState → Prop where
  | refl : ReachableFrom s0 s0
  | step {s t : LoopState} : ReachableFrom s0 s → LoopStep s t → ReachableFrom s0 t

/-- The bucket-conservation count:
`len(uncompleted) + (1 if active else 0) + len(completed)`. -/
def bucketCount (s : LoopState) : Nat :=
  s.uncompleted_criteria.length + (if s.active_criterion.isSome then 1 else 0) +
    s.completed_criteria.length

/-- Python `str.split()` over a character list: split on runs of whitespace,
dropping empty tokens.  `cur` holds the reversed characters of the token
being read. -/
def pySplitAux (cur : List Char) : List Char → List String
  | [] => if cur.isEmpty then [] else [String.mk cur.reverse]
  | c :: cs =>
    if c.isWhitespace then
      if cur.isEmpty then pySplitAux [] cs
      else String.mk cur.reverse :: pySplitAux [] cs
    else pySplitAux (c :: cur) cs

/-- Python `str.split()` with no separator argument. -/
def pySplitWhitespace (s : String) : List String :=
  pySplitAux [] s.data

/-- Value of a list of decimal digit characters, most significant first. -/
def digitsToNat (cs : List Char) : Nat :=
  cs.foldl (fun n c => n * 10 + (c.toNat - Char.toNat '0')) 0

/-- Python `int(token)` on the whitespace-free tokens produced by `split()`:
defined on non-empty all-digit strings, a `ValueError` (`none`) otherwise. -/
def pyParseNat (s : String) : Option Nat :=
  if !s.data.isEmpty && s.data.all Char.isDigit then some (digitsToNat s.data)
  else none

/-- `int(x.id.split()[-1])` from `node_save_results.py`: Python `str.split()`
splits on runs of whitespace and drops empty tokens; the last token is parsed
as a number. -/
def id_numeric_suffix (id : String) : Option Nat :=
  (pySplitWhitespace id).getLast?.bind pyParseNat

/-- The sort key of `save_results` (`node_save_results.py`):
`(-1 if x.criterion_type == "inclusion" else 0, int(x.id.split()[-1]))`.
The numeric suffix defaults to 0 where Python would raise; the sort-order
theorem assumes every id parses. -/
def criterion_sort_key (x : Criterion) : Int × Int :=
  (if x.criterion_type = "inclusion" then -1 else 0,
   ((id_numeric_suffix x.id).getD 0 : Nat))

/-- Lexicographic comparison of the sort keys, as Python `sorted` compares
key tuples. -/
def criterion_key_le (a b : Criterion) : Bool :=
  decide ((criterion_sort_key a).1 < (criterion_sort_key b).1) ||
    (decide ((criterion_sort_key a).1 = (criterion_sort_key b).1) &&
      decide ((criterion_sort_key a).2 ≤ (criterion_sort_key b).2))

/-- The reordering `save_results` applies to `state.completed_criteria`
before persisting: a stable sort by `criterion_sort_key`. -/
def save_results_sort (completed_criteria : List Criterion) : List Criterion :=
  completed_criteria.mergeSort criterion_key_le

/-- The routing decision of `consult_expert`
(`langgraph/construct_graph.py`), after the structured-output call has
produced `raw` (a list of names constrained to `expert_choices` by the
`Literal` type).  The pydantic validator `make_unique` removes duplicates
(`list(set(val))`); an empty result falls back to `["generalist"]` when a
generalist expert exists, otherwise to all available experts. -/
def choose_next_expert (expert_choices : List String) (raw : List String) :
    List String :=
  let next_expert := raw.dedup
  if next_expert.isEmpty then
    if "generalist" ∈ expert_choices then ["generalist"] else expert_choices
  else next_expert

/-- The state update of `consult_expert`: the chosen expert set is recorded
on the active criterion's `answered_by` field. -/
def consult_expert (expert_choices : List String) (raw : List String)
    (active : Criterion) : Criterion :=
  { active with answered_by := some (choose_next_expert expert_choices raw) }

/-- Outcome of one invocation of a function wrapped by
`retry_with_exponential_backoff`: a value, an `openai.RateLimitError`, or
any other exception. -/
inductive CallOutcome (α : Type) where
  | success (v : α)
  | rateLimited
  | otherFailure
deriving DecidableEq, Repr

/-- Result of the wrapper: the wrapped value, a re-raised
`RateLimitError`, or a propagated other exception. -/
inductive RunResult (α : Type) where
  | ok (v : α)
  | rateLimitRaised
  | otherRaised
deriving DecidableEq, Repr

/-- Observable trace of one wrapper run: its result, the number of times the
wrapped function was invoked, and the seconds slept before each retry, in
order. -/
structure RetryTrace (α : Type) where
  result : RunResult α
  ncalls : Nat
  waits : List Nat
deriving DecidableEq, Repr

/-- The `while attempt <= max_retries` loop of
`retry_with_exponential_backoff` (`utils/retry_with_backoff.py`).  `f k` is
the outcome of the (k+1)-th invocation of the wrapped function; `attempt`
counts previous rate-limited invocations, exactly as in the source.  A
non-rate-limit exception is not caught and propagates; a rate-limit error
either re-raises (when `attempt + 1 > max_retries`) or sleeps
`base_wait * 2 ** (attempt' - 1)` seconds and retries.  `fuel` bounds the
recursion; the wrapper enters with `fuel = max_retries + 1 - attempt`, which
keeps the base case unreachable (the guard raises first). -/
def retryLoop (max_retries base_wait : Nat) (f : Nat → CallOutcome α) :
    Nat → Nat → RetryTrace α
  | 0, _ => { result := .rateLimitRaised, ncalls := 0, waits := [] }
  | fuel + 1, attempt =>
    match f attempt with
    | .success v => { result := .ok v, ncalls := 1, waits := [] }
    | .otherFailure => { result := .otherRaised, ncalls := 1, waits := [] }
    | .rateLimited =>
      if attempt + 1 > max_retries then
        { result := .rateLimitRaised, ncalls := 1, waits := [] }
      else
        let wait_time := base_wait * 2 ^ attempt
        let rest := retryLoop max_retries base_wait f fuel (attempt + 1)
        { result := rest.result, ncalls := rest.ncalls + 1, waits := wait_time :: rest.waits }

/-- `retry_with_exponential_backoff(max_retries, base_wait)` applied to a
function whose successive invocations behave like `f`. -/
def retry_with_exponential_backoff (max_retries base_wait : Nat)
    (f : Nat → CallOutcome α) : RetryTrace α :=
  retryLoop max_retries base_wait f (max_retries + 1) 0

/-- The master hash of `RedisManager` for one (mrn, protocol) pair:
`{"ai_count": ..., "human_count": ...}`. -/
structure MasterEntry where
  ai_count : Int
  human_count : Int
deriving DecidableEq, Repr

/-- The Redis store as `RedisManager` uses it: the master hashes and the
plain key-value outputs. -/
structure RedisStore where
  hashes : List (String × MasterEntry)
  kv : List (String × String)
deriving DecidableEq, Repr

/-- `_master_key`: `f"master:{mrn}_{protocol}"`. -/
def master_key (mrn protocol : String) : String :=
  "master:" ++ mrn ++ "_" ++ protocol

/-- `_ai_key`: `f"{mrn}_{protocol}_output_{index}"`. -/
def ai_key (mrn protocol : String) (index : Int) : String :=
  mrn ++ "_" ++ protocol ++ "_output_" ++ toString index

/-- `_initialize_master_key`: create the master hash with both counts at -1
when it does not exist. -/
def init_master_key (store : RedisStore) (key : String) : RedisStore :=
  if (store.hashes.lookup key).isSome then store
  else { store with hashes := (key, { ai_count := -1, human_count := -1 }) :: store.hashes }

/-- Redis `HINCRBY key ai_count 1`: increment the field (a missing hash or
field counts as 0) and return the new value. -/
def hincrby_ai (store : RedisStore) (key : String) : Int × RedisStore :=
  match store.hashes.lookup key with
  | some entry =>
    let newv := entry.ai_count + 1
    (newv,
      { store with hashes := store.hashes.map (fun kv =>
          if kv.1 = key then (kv.1, { kv.2 with ai_count := newv }) else kv) })
  | none => (1, { store with hashes := (key, { ai_count := 1, human_count := 0 }) :: store.hashes })

/-- Redis `SET`: overwrite any existing value under the key. -/
def kvSet (kv : List (String × String)) (key value : String) :
    List (String × String) :=
  (key, value) :: kv.filter (fun p => !(p.1 = key : Bool))

/-- `RedisManager.add_ai_output` (`utils/redis_manager.py`): initialize the
master hash if absent, atomically increment `ai_count` (the first increment
takes -1 to 0), and store the result under `_ai_key(mrn, protocol, index)`.
Returns the index. -/
def add_ai_output (store : RedisStore) (mrn protocol result : String) :
    Int × RedisStore :=
  let mk := master_key mrn protocol
  let store1 := init_master_key store mk
  let p := hincrby_ai store1 mk
  let output_key := ai_key mrn protocol p.1
  (p.1, { p.2 with kv := kvSet p.2.kv output_key result })

/-- A sequence of `add_ai_output` calls for one (mrn, protocol) pair, one per
payload in `results`; returns the indices in call order and the final
store. -/
def add_ai_outputs (store : RedisStore) (mrn protocol : String) :
    List String → List Int × RedisStore
  | [] => ([], store)
  | r :: rs =>
    let p := add_ai_output store mrn protocol r
    let q := add_ai_outputs p.2 mrn protocol rs
    (p.1 :: q.1, q.2)

/-- Decimal digits of a natural number, most significant first: the
specification of `Nat.toDigitsCore` used to prove that distinct indices give
distinct Redis keys. -/
def decimalDigits (n : Nat) : List Char :=
  if n < 10 then [Nat.digitChar n]
  else decimalDigits (n / 10) ++ [Nat.digitChar (n % 10)]
decreasing_by exact Nat.div_lt_self (by omega) (by omega)

/-- A concrete run state used to witness the rule-based determination
theorem: one completed inclusion criterion that is not met. -/
def c1State : TrialMatcherState :=
  { trial_id := "21-283"
    mrn := "m1"
    final_determination := none
    uncompleted_criteria := []
    active_criterion := none
    n_total_criteria := 1
    completed_criteria :=
      [{ id := "inclusion criterion 1"
         criterion_text := "t"
         criterion_type := "inclusion"
         vacuous := false
         requires_human_review := false
         determination := some "not met"
         explanation := none
         answered_by := none
         rag_docs := none }] }

/- ----------------------------------------------------------------- -/
/- Helper lemmas on the dict embedding.                               -/
/- ----------------------------------------------------------------- -/

theorem lookup_map_union (a b : List (String × String)) (k : String) :
    (a.map (fun kv =>
        match b.lookup kv.1 with
        | some v => (kv.1, v)
        | none => kv)).lookup k =
      match a.lookup k with
      | some v => some ((b.lookup k).getD v)
      | none => none := by
  induction a with
  | nil => simp
  | cons hd tl ih =>
    by_cases hk : k = hd.1
    · subst hk
      cases hb : b.lookup hd.1 <;>
        simp [List.lookup, hb]
    · have hbeq : (k == hd.1) = false := by simpa using hk
      cases hb : b.lookup hd.1 <;>
        simp [List.lookup, hbeq, ih, hb]

theorem lookup_filter_isNone (a b : List (String × String)) (k : String) :
    (b.filter (fun kv => (a.lookup kv.1).isNone)).lookup k =
      if (a.lookup k).isNone then b.lookup k else none := by
  induction b with
  | nil => simp
  | cons hd tl ih =>
    by_cases hk : k = hd.1
    · subst hk
      cases ha : (a.lookup hd.1).isNone <;>
        simp [List.filter, List.lookup, ha, ih]
    · have hbeq : (k == hd.1) = false := by simpa using hk
      cases ha : (a.lookup hd.1).isNone <;>
        simp [List.filter, List.lookup, ha, hbeq, ih]

/-- The key-value map of the Python dict union `a | b`: a key found in `b`
takes `b`'s value, a key found only in `a` keeps `a`'s value. -/
theorem lookup_dictUnion (a b : List (String × String)) (k : String) :
    (dictUnion a b).lookup k = (b.lookup k).or (a.lookup k) := by
  unfold dictUnion
  rw [List.lookup_append, lookup_map_union, lookup_filter_isNone]
  cases ha : a.lookup k <;> cases hb : b.lookup k <;> simp [ha, hb]

/- ----------------------------------------------------------------- -/
/- Lemmas on the rule-based scan.                                     -/
/- ----------------------------------------------------------------- -/

theorem rule_based_scan_ineligible_iff (l : List Criterion) :
    rule_based_scan l = "ineligible" ↔ ∃ c ∈ l, blocksEligibility c := by
  induction l with
  | nil => simp [rule_based_scan]
  | cons c rest ih =>
    by_cases h1 : c.determination = some "unable to determine"
    · have hb : ¬ blocksEligibility c := by
        simp [blocksEligibility, h1]
      simp [rule_based_scan, h1, ih, hb]
    · by_cases h2 : c.criterion_type = "inclusion" ∧ c.determination = some "not met"
      · have hb : blocksEligibility c := Or.inl h2
        simp only [rule_based_scan, beq_iff_eq, Bool.and_eq_true]
        simp [h1, h2, hb]
      · by_cases h3 : c.criterion_type = "exclusion" ∧ c.determination = some "met"
        · have hb : blocksEligibility c := Or.inr h3
          simp only [rule_based_scan, beq_iff_eq, Bool.and_eq_true]
          simp [h1, h2, h3, hb]
        · have hb : ¬ blocksEligibility c := by
            intro h
            rcases h with h | h
            · exact h2 h
            · exact h3 h
          simp only [rule_based_scan, beq_iff_eq, Bool.and_eq_true]
          simp [h1, h2, h3, ih, hb]

theorem rule_based_scan_eligible_or (l : List Criterion) :
    rule_based_scan l = "eligible" ∨ rule_based_scan l = "ineligible" := by
  induction l with
  | nil => simp [rule_based_scan]
  | cons c rest ih =>
    simp only [rule_based_scan]
    by_cases h1 : (c.determination == some "unable to determine") = true
    · simpa [h1] using ih
    · simp only [Bool.not_eq_true] at h1
      by_cases h2 : (c.criterion_type == "inclusion" && c.determination == some "not met") = true
      · simp [h1, h2]
      · simp only [Bool.not_eq_true] at h2
        by_cases h3 : (c.criterion_type == "exclusion" && c.determination == some "met") = true
        · simp [h1, h2, h3]
        · simp only [Bool.not_eq_true] at h3
          simpa [h1, h2, h3] using ih

theorem rule_based_scan_skips_utd (l : List Criterion) :
    rule_based_scan l =
      rule_based_scan (l.filter (fun c => !(c.determination == some "unable to determine"))) := by
  induction l with
  | nil => rfl
  | cons c rest ih =>
    by_cases h1 : c.determination = some "unable to determine"
    · simp [rule_based_scan, List.filter, h1, ih]
    · have hb1 : (c.determination == some "unable to determine") = false := by
        simpa using h1
      by_cases h2 : (c.criterion_type == "inclusion" && c.determination == some "not met") = true
      · simp [rule_based_scan, List.filter, hb1, h2]
      · simp only [Bool.not_eq_true] at h2
        by_cases h3 : (c.criterion_type == "exclusion" && c.determination == some "met") = true
        · simp [rule_based_scan, List.filter, hb1, h2, h3]
        · simp only [Bool.not_eq_true] at h3
          simp [rule_based_scan, List.filter, hb1, h2, h3, ih]

/-- C1: under the bucket-count precondition, the rule-based final
determination succeeds (the assertion passes) and writes a verdict that is a
pure function of the completed-criteria list alone — so re-running it on an
unchanged list yields the same verdict.  The verdict is "ineligible" iff
some completed criterion is an inclusion criterion determined "not met" or
an exclusion criterion determined "met", and "eligible" otherwise; criteria
determined "unable to determine" are skipped entirely (filtering them out
does not change the verdict). -/
theorem final_determination_rule_based_spec (s : TrialMatcherState)
    (h : s.completed_criteria.length + s.uncompleted_criteria.length +
      (if s.active_criterion.isSome then 1 else 0) = s.n_total_criteria) :
    final_determination_rule_based s =
      some { s with final_determination := some (rule_based_scan s.completed_criteria) } ∧
    (rule_based_scan s.completed_criteria = "ineligible" ↔
      ∃ c ∈ s.completed_criteria, blocksEligibility c) ∧
    (rule_based_scan s.completed_criteria = "eligible" ↔
      ¬ ∃ c ∈ s.completed_criteria, blocksEligibility c) ∧
    rule_based_scan s.completed_criteria =
      rule_based_scan (s.completed_criteria.filter
        (fun c => !(c.determination == some "unable to determine"))) := by
  refine ⟨?_, rule_based_scan_ineligible_iff _, ?_, rule_based_scan_skips_utd _⟩
  · simp [final_determination_rule_based, h]
  · constructor
    · intro he
      rw [← rule_based_scan_ineligible_iff]
      intro hin
      rw [hin] at he
      exact absurd he (by decide)
    · intro hne
      rcases rule_based_scan_eligible_or s.completed_criteria with he | hi
      · exact he
      · exact absurd ((rule_based_scan_ineligible_iff _).mp hi) hne

/-- Witness for C1: the rule-based determination applied to a concrete state
with a single completed "not met" inclusion criterion. -/
theorem final_determination_rule_based_spec_witness :
    final_determination_rule_based c1State =
      some { c1State with
        final_determination := some (rule_based_scan c1State.completed_criteria) } ∧
    (rule_based_scan c1State.completed_criteria = "ineligible" ↔
      ∃ c ∈ c1State.completed_criteria, blocksEligibility c) := by
  have h := final_determination_rule_based_spec c1State (by decide)
  exact ⟨h.1, h.2.1⟩

/- ----------------------------------------------------------------- -/
/- Bucket conservation (C2).                                          -/
/- ----------------------------------------------------------------- -/

theorem prePass_length (l : List Criterion) :
    (prePass l).1.length + (prePass l).2.length = l.length := by
  induction l with
  | nil => rfl
  | cons c rest ih =>
    by_cases hv : c.vacuous <;> by_cases hr : c.requires_human_review <;>
      simp [prePass, hv, hr] <;> omega

theorem initializePipeline_invariant (l : List Criterion) (s0 : LoopState)
    (h : initializePipeline l = some s0) :
    bucketCount s0 = s0.n_total_criteria := by
  have hlen := prePass_length l
  simp only [initializePipeline] at h
  rw [if_pos hlen] at h
  rcases hu : (prePass l).1 with _ | ⟨a, rest⟩ <;> rw [hu] at h hlen
  · exact absurd h (by simp)
  · simp only [Option.some.injEq] at h
    subst h
    have hlen' : rest.length + 1 + (prePass l).2.length = l.length := by
      simpa using hlen
    simp [bucketCount]
    omega

theorem loopStep_preserves_bucketCount {s t : LoopState} (hstep : LoopStep s t)
    (h : bucketCount s = s.n_total_criteria) :
    bucketCount t = t.n_total_criteria := by
  cases hstep with
  | coordinate => exact h
  | consult f =>
    simpa [bucketCount, Option.isSome_map] using h
  | advance hact =>
    rcases ha : s.active_criterion with _ | a
    · rw [ha] at hact; exact absurd hact (by simp)
    · unfold bucketCount at h ⊢
      rw [ha] at h
      rcases hu : s.uncompleted_criteria with _ | ⟨x, rest⟩
      · simp [update_current_criterion, hu, ha] at h ⊢
        omega
      · simp [update_current_criterion, hu, ha] at h ⊢
        omega

/-- C2: every run state reachable from a validly initialized state (the
vacuous/human-review pre-pass followed by popping the first uncompleted
criterion into the active slot) satisfies the bucket-conservation invariant
`len(uncompleted) + (1 if active else 0) + len(completed) ==
n_total_criteria`; every pipeline stage — in particular
`update_current_criterion`, which appends the active criterion to the
completed list and pops the head of the uncompleted queue into the active
slot (or leaves it empty) — preserves it. -/
theorem bucket_conservation (l : List Criterion) (s0 s : LoopState)
    (hinit : initializePipeline l = some s0)
    (hreach : ReachableFrom s0 s) :
    bucketCount s = s.n_total_criteria := by
  induction hreach with
  | refl => exact initializePipeline_invariant l s0 hinit
  | step _ hstep ih => exact loopStep_preserves_bucketCount hstep ih

/-- A one-criterion trial used to witness bucket conservation. -/
def c2Crit : Criterion :=
  { id := "inclusion criterion 1"
    criterion_text := "t"
    criterion_type := "inclusion"
    vacuous := false
    requires_human_review := false
    determination := none
    explanation := none
    answered_by := none
    rag_docs := none }

/-- The state initialization produces on the one-criterion trial. -/
def c2State : LoopState :=
  { uncompleted_criteria := []
    active_criterion := some c2Crit
    completed_criteria := []
    n_total_criteria := 1 }

/-- Witness for C2: the invariant holds on the concrete initial state of a
one-criterion trial, and on the state `update_current_criterion` advances it
to. -/
theorem bucket_conservation_witness :
    bucketCount (update_current_criterion c2State) =
      (update_current_criterion c2State).n_total_criteria := by
  exact bucket_conservation [c2Crit] c2State (update_current_criterion c2State)
    (by decide)
    (ReachableFrom.step ReachableFrom.refl (LoopStep.advance c2State (by decide)))

/- ----------------------------------------------------------------- -/
/- The branch-merge reducer (C3, C4, C10).                            -/
/- ----------------------------------------------------------------- -/

/-- Computation of the reducer's same-id merge branch: with equal ids, both
explanation maps non-empty and unequal, and both rag_docs lists present, the
reducer returns the merged criterion. -/
theorem reducer_merge_eq (current upd : Criterion)
    (cexp uexp : List (String × String)) (cdocs udocs : List Document)
    (hid : current.id = upd.id)
    (hce : current.explanation = some cexp) (hue : upd.explanation = some uexp)
    (hcne : cexp ≠ []) (hune : uexp ≠ [])
    (hneq : dictBeq cexp uexp = false)
    (hcd : current.rag_docs = some cdocs) (hud : upd.rag_docs = some udocs) :
    active_criterion_reducer current (some upd) =
      Except.ok (some { current with
        explanation := some (dictUnion cexp uexp),
        rag_docs := some (cdocs ++ udocs.filter
          (fun doc => !((cdocs.map (fun d => d.id)).contains doc.id))) }) := by
  have hc1 : cexp.isEmpty = false := by
    cases cexp
    · exact absurd rfl hcne
    · rfl
  have hu1 : uexp.isEmpty = false := by
    cases uexp
    · exact absurd rfl hune
    · rfl
  simp only [active_criterion_reducer, hce, hue, hcd, hud]
  rw [if_pos hid]
  simp [optDictBeq, hneq, pyTruthy, hc1, hu1]

/-- A non-empty dict whose keys are all absent from another dict is not
equal to it as a map. -/
theorem dictBeq_false_of_disjoint (ea eb : List (String × String))
    (hane : ea ≠ [])
    (hdisj : ∀ k, (ea.lookup k).isSome → eb.lookup k = none) :
    dictBeq ea eb = false := by
  rcases ea with _ | ⟨kv, rest⟩
  · exact absurd rfl hane
  · obtain ⟨k0, v0⟩ := kv
    have h1 : eb.lookup k0 = none := hdisj k0 (by simp)
    simp [dictBeq, h1]

/-- C3: for the branch-merge reducer on a pair (current, update) with update
non-None: when the ids agree and both explanation maps are non-empty and
unequal, the result carries the union of the two explanation maps (as a map:
a key takes the update's value when present there, the current's value
otherwise) and the concatenation of current.rag_docs with those
update.rag_docs whose doc.id does not already occur in current.rag_docs —
so no duplicate evidence identities arise when neither fragment repeats an
identity; when the ids differ, the result is exactly the update (full
replacement). -/
theorem active_criterion_reducer_merge_spec (current upd : Criterion) :
    (∀ cexp uexp cdocs udocs,
      current.id = upd.id →
      current.explanation = some cexp → upd.explanation = some uexp →
      cexp ≠ [] → uexp ≠ [] → dictBeq cexp uexp = false →
      current.rag_docs = some cdocs → upd.rag_docs = some udocs →
      active_criterion_reducer current (some upd) =
        Except.ok (some { current with
          explanation := some (dictUnion cexp uexp),
          rag_docs := some (cdocs ++ udocs.filter
            (fun doc => !((cdocs.map (fun d => d.id)).contains doc.id))) }) ∧
      (∀ k, (dictUnion cexp uexp).lookup k = (uexp.lookup k).or (cexp.lookup k)) ∧
      ((cdocs.map (fun d => d.id)).Nodup → (udocs.map (fun d => d.id)).Nodup →
        ((cdocs ++ udocs.filter
            (fun doc => !((cdocs.map (fun d => d.id)).contains doc.id))).map
          (fun d => d.id)).Nodup)) ∧
    (current.id ≠ upd.id →
      active_criterion_reducer current (some upd) = Except.ok (some upd)) := by
  constructor
  · intro cexp uexp cdocs udocs hid hce hue hcne hune hneq hcd hud
    refine ⟨reducer_merge_eq current upd cexp uexp cdocs udocs
      hid hce hue hcne hune hneq hcd hud,
      fun k => lookup_dictUnion cexp uexp k, ?_⟩
    intro hcn hun
    rw [List.map_append]
    refine List.Nodup.append hcn ?_ ?_
    · exact List.Nodup.sublist (List.Sublist.map _ (List.filter_sublist udocs)) hun
    · intro a hac haf
      rw [List.mem_map] at haf
      rcases haf with ⟨doc, hdocmem, hdocid⟩
      rw [List.mem_filter] at hdocmem
      have := hdocmem.2
      rw [Bool.not_eq_true', ← Bool.not_eq_true] at this
      apply this
      exact List.elem_eq_true_of_mem (hdocid ▸ hac)
  · intro hid
    simp [active_criterion_reducer, hid]

/-- Current active-criterion fragment used to witness the reducer merge. -/
def c3Cur : Criterion :=
  { id := "inclusion criterion 1"
    criterion_text := "t"
    criterion_type := "inclusion"
    vacuous := false
    requires_human_review := false
    determination := none
    explanation := some [("cardiology", "e1")]
    answered_by := none
    rag_docs := some [{ id := some "d1", page_content := "x" }] }

/-- Update fragment for the same criterion id used to witness the reducer
merge. -/
def c3Upd : Criterion :=
  { id := "inclusion criterion 1"
    criterion_text := "t"
    criterion_type := "inclusion"
    vacuous := false
    requires_human_review := false
    determination := none
    explanation := some [("oncology", "e2")]
    answered_by := none
    rag_docs := some [{ id := some "d1", page_content := "x" },
                      { id := some "d2", page_content := "y" }] }

/-- Witness for C3: merging two concrete same-id fragments unions the
explanations and deduplicates the evidence by identity. -/
theorem active_criterion_reducer_merge_spec_witness :
    active_criterion_reducer c3Cur (some c3Upd) =
      Except.ok (some { c3Cur with
        explanation := some (dictUnion [("cardiology", "e1")] [("oncology", "e2")]),
        rag_docs := some
          ([({ id := some "d1", page_content := "x" } : Document)] ++
            ([{ id := some "d1", page_content := "x" },
              { id := some "d2", page_content := "y" }] : List Document).filter
              (fun doc =>
                !((([({ id := some "d1", page_content := "x" } : Document)]).map
                  (fun d => d.id)).contains doc.id))) }) :=
  ((active_criterion_reducer_merge_spec c3Cur c3Upd).1
    [("cardiology", "e1")] [("oncology", "e2")]
    [{ id := some "d1", page_content := "x" }]
    [{ id := some "d1", page_content := "x" }, { id := some "d2", page_content := "y" }]
    rfl rfl rfl (by decide) (by decide) (by decide) rfl rfl).1

/-- Fragment A of the merge-commutativity counterexample: explanation
`{"agent": "1"}`. -/
def c4A : Criterion :=
  { id := "inclusion criterion 1"
    criterion_text := "t"
    criterion_type := "inclusion"
    vacuous := false
    requires_human_review := false
    determination := none
    explanation := some [("agent", "1")]
    answered_by := none
    rag_docs := some [] }

/-- Fragment B of the merge-commutativity counterexample: same id as A but
a different value under the same explanation key. -/
def c4B : Criterion :=
  { id := "inclusion criterion 1"
    criterion_text := "t"
    criterion_type := "inclusion"
    vacuous := false
    requires_human_review := false
    determination := none
    explanation := some [("agent", "2")]
    answered_by := none
    rag_docs := some [] }

/-- Counterexample to C4 as stated: two same-id fragments whose non-empty
explanation maps share the key "agent" with different values.  Merging A
then B yields the mapping `{"agent": "2"}` while merging B then A yields
`{"agent": "1"}` — the two orders do not produce the same final explanation
mapping, and the pair ("agent", "1") contributed by A is dropped by the
A-then-B merge. -/
theorem reducer_merge_not_commutative :
    c4A.id = c4B.id ∧
    c4A.explanation = some [("agent", "1")] ∧
    active_criterion_reducer c4A (some c4B) =
      Except.ok (some { c4A with explanation := some [("agent", "2")] }) ∧
    active_criterion_reducer c4B (some c4A) =
      Except.ok (some { c4B with explanation := some [("agent", "1")] }) ∧
    ([("agent", "2")] : List (String × String)).lookup "agent" ≠
      ([("agent", "1")] : List (String × String)).lookup "agent" :=
  ⟨rfl, rfl, rfl, rfl, by decide⟩

/-- C4 (amended): merging two expert result fragments for the same
criterion id — each with a non-empty explanation map and a rag_docs list —
in either order yields the same final explanation mapping, and no key-value
pair contributed by either fragment is dropped, provided the two
explanation maps have disjoint key sets (as is the case when each expert
contributes under its own name).  Without disjointness the update's value
overwrites the current one on a shared key, so order matters
(`reducer_merge_not_commutative`). -/
theorem reducer_merge_commutative_disjoint (A B : Criterion)
    (ea eb : List (String × String)) (da db : List Document)
    (hid : A.id = B.id)
    (hA : A.explanation = some ea) (hB : B.explanation = some eb)
    (hane : ea ≠ []) (hbne : eb ≠ [])
    (hdisj : ∀ k, (ea.lookup k).isSome → eb.lookup k = none)
    (hda : A.rag_docs = some da) (hdb : B.rag_docs = some db) :
    active_criterion_reducer A (some B) =
      Except.ok (some { A with
        explanation := some (dictUnion ea eb),
        rag_docs := some (da ++ db.filter
          (fun doc => !((da.map (fun d => d.id)).contains doc.id))) }) ∧
    active_criterion_reducer B (some A) =
      Except.ok (some { B with
        explanation := some (dictUnion eb ea),
        rag_docs := some (db ++ da.filter
          (fun doc => !((db.map (fun d => d.id)).contains doc.id))) }) ∧
    (∀ k, (dictUnion ea eb).lookup k = (dictUnion eb ea).lookup k) ∧
    (∀ k v, ea.lookup k = some v ∨ eb.lookup k = some v →
      (dictUnion ea eb).lookup k = some v ∧ (dictUnion eb ea).lookup k = some v) := by
  have hdisj' : ∀ k, (eb.lookup k).isSome → ea.lookup k = none := by
    intro k hk
    cases ha : ea.lookup k
    · rfl
    · rw [hdisj k (by simp [ha])] at hk
      exact absurd hk (by simp)
  have hne1 : dictBeq ea eb = false := dictBeq_false_of_disjoint ea eb hane hdisj
  have hne2 : dictBeq eb ea = false := dictBeq_false_of_disjoint eb ea hbne hdisj'
  refine ⟨reducer_merge_eq A B ea eb da db hid hA hB hane hbne hne1 hda hdb,
    reducer_merge_eq B A eb ea db da hid.symm hB hA hbne hane hne2 hdb hda,
    ?_, ?_⟩
  · intro k
    rw [lookup_dictUnion, lookup_dictUnion]
    cases ha : ea.lookup k
    · simp
    · rw [hdisj k (by simp [ha])]
      simp
  · intro k v hv
    rw [lookup_dictUnion, lookup_dictUnion]
    rcases hv with hv | hv
    · rw [hv, hdisj k (by simp [hv])]
      simp
    · rw [hv, hdisj' k (by simp [hv])]
      simp

/-- Witness for the amended C4: the two concrete same-id fragments with
disjoint explanation keys merge to the same mapping in either order. -/
theorem reducer_merge_commutative_disjoint_witness :
    active_criterion_reducer c3Cur (some c3Upd) =
      Except.ok (some { c3Cur with
        explanation := some (dictUnion [("cardiology", "e1")] [("oncology", "e2")]),
        rag_docs := some
          ([({ id := some "d1", page_content := "x" } : Document)] ++
            ([{ id := some "d1", page_content := "x" },
              { id := some "d2", page_content := "y" }] : List Document).filter
              (fun doc =>
                !((([({ id := some "d1", page_content := "x" } : Document)]).map
                  (fun d => d.id)).contains doc.id))) }) ∧
    active_criterion_reducer c3Upd (some c3Cur) =
      Except.ok (some { c3Upd with
        explanation := some (dictUnion [("oncology", "e2")] [("cardiology", "e1")]),
        rag_docs := some
          (([{ id := some "d1", page_content := "x" },
             { id := some "d2", page_content := "y" }] : List Document) ++
            ([({ id := some "d1", page_content := "x" } : Document)]).filter
              (fun doc =>
                !((([{ id := some "d1", page_content := "x" },
                     { id := some "d2", page_content := "y" }] : List Document).map
                  (fun d => d.id)).contains doc.id))) }) := by
  have h := reducer_merge_commutative_disjoint c3Cur c3Upd
    [("cardiology", "e1")] [("oncology", "e2")]
    [{ id := some "d1", page_content := "x" }]
    [{ id := some "d1", page_content := "x" }, { id := some "d2", page_content := "y" }]
    rfl rfl rfl (by decide) (by decide)
    (by
      intro k hk
      by_cases hke : k = "cardiology"
      · subst hke; decide
      · have hkb : (k == "cardiology") = false := beq_eq_false_iff_ne.mpr hke
        simp [List.lookup, hkb] at hk)
    rfl rfl
  exact ⟨h.1, h.2.1⟩

/-- C10: the reducer's same-id merge branch is partial in rag_docs.  With
equal ids and both explanation maps non-empty, non-None and unequal, the
reducer raises (a `TypeError` from iterating `None`) whenever either
fragment's rag_docs is None, and returns a merged criterion whenever both
carry a rag_docs list. -/
theorem active_criterion_reducer_rag_docs_partial (current upd : Criterion)
    (hid : current.id = upd.id)
    (hct : pyTruthy current.explanation = true)
    (hut : pyTruthy upd.explanation = true)
    (hne : optDictBeq current.explanation upd.explanation = false) :
    ((current.rag_docs = none ∨ upd.rag_docs = none) →
      active_criterion_reducer current (some upd) = Except.error PyErr.typeErr) ∧
    (∀ cdocs udocs, current.rag_docs = some cdocs → upd.rag_docs = some udocs →
      ∃ merged : Criterion,
        active_criterion_reducer current (some upd) = Except.ok (some merged)) := by
  rcases hceq : current.explanation with _ | cexp
  · rw [hceq] at hct
    simp [pyTruthy] at hct
  rcases hueq : upd.explanation with _ | uexp
  · rw [hueq] at hut
    simp [pyTruthy] at hut
  rw [hceq] at hct hne
  rw [hueq] at hut hne
  constructor
  · intro hdocs
    simp only [active_criterion_reducer, hceq, hueq]
    rw [if_pos hid, if_neg (by simp [hne]), if_neg (by simp),
      if_neg (by simp), if_pos (by simp [hct, hut])]
    rcases hdocs with hd | hd
    · rcases hu2 : upd.rag_docs with _ | uds <;> simp [hd, hu2]
    · rcases hc2 : current.rag_docs with _ | cds <;> simp [hd, hc2]
  · intro cdocs udocs hcd hud
    refine ⟨_, reducer_merge_eq current upd cexp uexp cdocs udocs hid hceq hueq
      ?_ ?_ ?_ hcd hud⟩
    · intro h
      rw [h] at hct
      simp [pyTruthy] at hct
    · intro h
      rw [h] at hut
      simp [pyTruthy] at hut
    · cases hb : dictBeq cexp uexp
      · rfl
      · rw [optDictBeq, hb] at hne
        exact hne

/-- Witness for C10: the concrete same-id fragments merge when both carry
rag_docs, and raise when the update's rag_docs is None. -/
theorem active_criterion_reducer_rag_docs_partial_witness :
    active_criterion_reducer c3Cur (some { c3Upd with rag_docs := none }) =
      Except.error PyErr.typeErr := by
  have h := active_criterion_reducer_rag_docs_partial c3Cur
    { c3Upd with rag_docs := none } rfl (by decide) (by decide) (by decide)
  exact h.1 (Or.inr rfl)

/- ----------------------------------------------------------------- -/
/- Persisted sort order (C5).                                         -/
/- ----------------------------------------------------------------- -/

theorem criterion_key_le_trans :
    ∀ a b c : Criterion, criterion_key_le a b → criterion_key_le b c →
      criterion_key_le a c := by
  intro a b c hab hbc
  simp only [criterion_key_le, Bool.or_eq_true, Bool.and_eq_true,
    decide_eq_true_eq] at hab hbc ⊢
  omega

theorem criterion_key_le_total :
    ∀ a b : Criterion, criterion_key_le a b || criterion_key_le b a := by
  intro a b
  simp only [criterion_key_le, Bool.or_eq_true, Bool.and_eq_true,
    decide_eq_true_eq]
  omega

/-- C5: for every completed-criteria list (each criterion's id ending in a
numeric token), the save-results reordering is a permutation of the input in
which no exclusion criterion ever precedes an inclusion criterion, and
criteria of the same type appear in ascending order of the numeric suffix of
their ids — i.e. all inclusion criteria first (ascending numeric id), then
all exclusion criteria (ascending numeric id). -/
theorem save_results_sort_order (l : List Criterion)
    (h : ∀ c ∈ l, (id_numeric_suffix c.id).isSome) :
    List.Perm (save_results_sort l) l ∧
    (∀ c ∈ save_results_sort l, (id_numeric_suffix c.id).isSome) ∧
    (save_results_sort l).Pairwise (fun a b =>
      (b.criterion_type = "inclusion" → a.criterion_type = "inclusion") ∧
      ((a.criterion_type = "inclusion" ↔ b.criterion_type = "inclusion") →
        (id_numeric_suffix a.id).getD 0 ≤ (id_numeric_suffix b.id).getD 0)) := by
  refine ⟨List.mergeSort_perm l criterion_key_le,
    fun c hc => h c ((List.mergeSort_perm l criterion_key_le).mem_iff.mp hc), ?_⟩
  · have hs := List.sorted_mergeSort criterion_key_le_trans criterion_key_le_total l
    refine List.Pairwise.imp ?_ hs
    intro a b hab
    simp only [criterion_key_le, criterion_sort_key, Bool.or_eq_true,
      Bool.and_eq_true, decide_eq_true_eq] at hab
    constructor
    · intro hbinc
      by_cases hainc : a.criterion_type = "inclusion"
      · exact hainc
      · rw [if_pos hbinc, if_neg hainc] at hab
        omega
    · intro hiff
      by_cases hainc : a.criterion_type = "inclusion"
      · rw [if_pos hainc, if_pos (hiff.mp hainc)] at hab
        omega
      · rw [if_neg hainc, if_neg (fun hb => hainc (hiff.mpr hb))] at hab
        omega

/-- A concrete out-of-order completed list used to witness the sort-order
theorem: exclusions and inclusions interleaved, ids out of order. -/
def c5List : List Criterion :=
  [{ id := "exclusion criterion 2", criterion_text := "t",
     criterion_type := "exclusion", vacuous := false,
     requires_human_review := false, determination := some "not met",
     explanation := none, answered_by := none, rag_docs := none },
   { id := "inclusion criterion 10", criterion_text := "t",
     criterion_type := "inclusion", vacuous := false,
     requires_human_review := false, determination := some "met",
     explanation := none, answered_by := none, rag_docs := none },
   { id := "exclusion criterion 1", criterion_text := "t",
     criterion_type := "exclusion", vacuous := false,
     requires_human_review := false, determination := some "not met",
     explanation := none, answered_by := none, rag_docs := none },
   { id := "inclusion criterion 2", criterion_text := "t",
     criterion_type := "inclusion", vacuous := false,
     requires_human_review := false, determination := some "met",
     explanation := none, answered_by := none, rag_docs := none }]

/-- Witness for C5: the sort-order theorem applied to the concrete list. -/
theorem save_results_sort_order_witness :
    List.Perm (save_results_sort c5List) c5List ∧
    (∀ c ∈ save_results_sort c5List, (id_numeric_suffix c.id).isSome) ∧
    (save_results_sort c5List).Pairwise (fun a b =>
      (b.criterion_type = "inclusion" → a.criterion_type = "inclusion") ∧
      ((a.criterion_type = "inclusion" ↔ b.criterion_type = "inclusion") →
        (id_numeric_suffix a.id).getD 0 ≤ (id_numeric_suffix b.id).getD 0)) :=
  save_results_sort_order c5List (by decide)

/- ----------------------------------------------------------------- -/
/- The vacuous / human-review pre-pass (C6).                          -/
/- ----------------------------------------------------------------- -/

theorem prePass_mem_vacuous (l : List Criterion) (c : Criterion)
    (hc : c ∈ l) (hv : c.vacuous = true) :
    ({ c with
        determination := some "met",
        explanation := some [("rule", "Vacuous criterion")] } : Criterion) ∈
      (prePass l).2 := by
  induction l with
  | nil => cases hc
  | cons hd tl ih =>
    rcases List.mem_cons.mp hc with rfl | hmem
    · simp [prePass, hv]
    · by_cases h1 : hd.vacuous <;> by_cases h2 : hd.requires_human_review <;>
        simp [prePass, h1, h2, ih hmem]

theorem prePass_mem_human (l : List Criterion) (c : Criterion)
    (hc : c ∈ l) (hv : c.vacuous = false) (hr : c.requires_human_review = true) :
    ({ c with
        determination := some "unable to determine",
        explanation := some [("rule", "Requires human review")] } : Criterion) ∈
      (prePass l).2 := by
  induction l with
  | nil => cases hc
  | cons hd tl ih =>
    rcases List.mem_cons.mp hc with rfl | hmem
    · simp [prePass, hv, hr]
    · by_cases h1 : hd.vacuous <;> by_cases h2 : hd.requires_human_review <;>
        simp [prePass, h1, h2, ih hmem]

theorem prePass_completed_shape (l : List Criterion) (c : Criterion)
    (hc : c ∈ (prePass l).2) :
    (c.determination = some "met" ∧
      c.explanation = some [("rule", "Vacuous criterion")]) ∨
    (c.determination = some "unable to determine" ∧
      c.explanation = some [("rule", "Requires human review")]) := by
  induction l with
  | nil => cases hc
  | cons hd tl ih =>
    by_cases h1 : hd.vacuous
    · rw [show prePass (hd :: tl) =
        ((prePass tl).1, { hd with
          determination := some "met",
          explanation := some [("rule", "Vacuous criterion")] } :: (prePass tl).2) by
          simp [prePass, h1]] at hc
      rcases List.mem_cons.mp hc with rfl | hmem
      · exact Or.inl ⟨rfl, rfl⟩
      · exact ih hmem
    · by_cases h2 : hd.requires_human_review
      · rw [show prePass (hd :: tl) =
          ((prePass tl).1, { hd with
            determination := some "unable to determine",
            explanation := some [("rule", "Requires human review")] } :: (prePass tl).2) by
            simp [prePass, h1, h2]] at hc
        rcases List.mem_cons.mp hc with rfl | hmem
        · exact Or.inr ⟨rfl, rfl⟩
        · exact ih hmem
      · rw [show prePass (hd :: tl) = (hd :: (prePass tl).1, (prePass tl).2) by
          simp [prePass, h1, h2]] at hc
        exact ih hc

theorem prePass_uncompleted_unflagged (l : List Criterion) (c : Criterion)
    (hc : c ∈ (prePass l).1) :
    c.vacuous = false ∧ c.requires_human_review = false := by
  induction l with
  | nil => cases hc
  | cons hd tl ih =>
    by_cases h1 : hd.vacuous
    · rw [show (prePass (hd :: tl)).1 = (prePass tl).1 by simp [prePass, h1]] at hc
      exact ih hc
    · by_cases h2 : hd.requires_human_review
      · rw [show (prePass (hd :: tl)).1 = (prePass tl).1 by
          simp [prePass, h1, h2]] at hc
        exact ih hc
      · rw [show (prePass (hd :: tl)).1 = hd :: (prePass tl).1 by
          simp [prePass, h1, h2]] at hc
        rcases List.mem_cons.mp hc with rfl | hmem
        · exact ⟨by simpa using h1, by simpa using h2⟩
        · exact ih hmem

/-- A criterion flagged both vacuous and requiring human review, on which
the pre-pass takes the vacuous branch. -/
def c6Both : Criterion :=
  { id := "inclusion criterion 1"
    criterion_text := "t"
    criterion_type := "inclusion"
    vacuous := true
    requires_human_review := true
    determination := none
    explanation := none
    answered_by := none
    rag_docs := none }

/-- Counterexample to C6 as stated: a criterion with both
`vacuous = true` and `requires_human_review = true` is moved into the
completed list with determination "met" (the vacuous branch wins in the
source's if/elif), not with "unable to determine" as the claim requires of
every criterion with `requires_human_review = true`. -/
theorem prePass_dual_flag_counterexample :
    c6Both.requires_human_review = true ∧
    (prePass [c6Both]).2 =
      [{ c6Both with
         determination := some "met",
         explanation := some [("rule", "Vacuous criterion")] }] ∧
    (some "met" : Option String) ≠ some "unable to determine" :=
  ⟨rfl, rfl, by decide⟩

/-- C6 (amended): the pre-pass moves each vacuous criterion into completed
with determination "met" and explanation exactly `{"rule": "Vacuous
criterion"}`, moves each non-vacuous criterion with
`requires_human_review = true` into completed with determination "unable to
determine" and explanation `{"rule": "Requires human review"}` (a criterion
with both flags takes the vacuous branch), leaves no flagged criterion in
the uncompleted queue (so none is ever dispatched to an expert), gives every
pre-completed criterion one of the two synthetic "rule" explanations, and
always satisfies the count assertion `len(uncompleted) + len(pre-completed)
== original criterion count` that the source checks immediately after the
pre-pass. -/
theorem prePass_spec (l : List Criterion) :
    ((prePass l).1.length + (prePass l).2.length = l.length) ∧
    (∀ c ∈ l, c.vacuous = true →
      ({ c with
         determination := some "met",
         explanation := some [("rule", "Vacuous criterion")] } : Criterion) ∈
        (prePass l).2) ∧
    (∀ c ∈ l, c.vacuous = false → c.requires_human_review = true →
      ({ c with
         determination := some "unable to determine",
         explanation := some [("rule", "Requires human review")] } : Criterion) ∈
        (prePass l).2) ∧
    (∀ c ∈ (prePass l).2,
      (c.determination = some "met" ∧
        c.explanation = some [("rule", "Vacuous criterion")]) ∨
      (c.determination = some "unable to determine" ∧
        c.explanation = some [("rule", "Requires human review")])) ∧
    (∀ c ∈ (prePass l).1, c.vacuous = false ∧ c.requires_human_review = false) :=
  ⟨prePass_length l,
   fun c hc hv => prePass_mem_vacuous l c hc hv,
   fun c hc hv hr => prePass_mem_human l c hc hv hr,
   fun c hc => prePass_completed_shape l c hc,
   fun c hc => prePass_uncompleted_unflagged l c hc⟩

/-- A vacuous criterion for the pre-pass witness. -/
def c6Vac : Criterion :=
  { id := "inclusion criterion 1"
    criterion_text := "t"
    criterion_type := "inclusion"
    vacuous := true
    requires_human_review := false
    determination := none
    explanation := none
    answered_by := none
    rag_docs := none }

/-- A normal criterion for the pre-pass witness. -/
def c6Norm : Criterion :=
  { id := "inclusion criterion 2"
    criterion_text := "t"
    criterion_type := "inclusion"
    vacuous := false
    requires_human_review := false
    determination := none
    explanation := none
    answered_by := none
    rag_docs := none }

/-- Witness for the amended C6: on a concrete two-criterion trial the count
assertion holds and the vacuous criterion lands in completed with the fixed
determination and synthetic explanation. -/
theorem prePass_spec_witness :
    ((prePass [c6Vac, c6Norm]).1.length + (prePass [c6Vac, c6Norm]).2.length =
      ([c6Vac, c6Norm] : List Criterion).length) ∧
    ({ c6Vac with
       determination := some "met",
       explanation := some [("rule", "Vacuous criterion")] } : Criterion) ∈
      (prePass [c6Vac, c6Norm]).2 := by
  have h := prePass_spec [c6Vac, c6Norm]
  exact ⟨h.1, h.2.1 c6Vac (by simp) rfl⟩

/- ----------------------------------------------------------------- -/
/- Multi-expert routing (C7).                                         -/
/- ----------------------------------------------------------------- -/

/-- C7: given a non-empty duplicate-free list of available expert names and
a raw choice whose entries are all available (the structured-output
`Literal` type guarantees this), the recorded expert set is duplicate-free,
non-empty, and a subset of the available names; a non-empty raw choice maps
to exactly its set of names with duplicates removed; an empty raw choice
falls back to `["generalist"]` when a generalist is available and to all
available experts otherwise; and the chosen set is recorded on the active
criterion's `answered_by` routing field. -/
theorem consult_expert_routing (expert_choices raw : List String)
    (active : Criterion)
    (hnodup : expert_choices.Nodup) (hne : expert_choices ≠ [])
    (hsub : ∀ x ∈ raw, x ∈ expert_choices) :
    (choose_next_expert expert_choices raw).Nodup ∧
    choose_next_expert expert_choices raw ≠ [] ∧
    (∀ x ∈ choose_next_expert expert_choices raw, x ∈ expert_choices) ∧
    (raw ≠ [] → ∀ x, x ∈ choose_next_expert expert_choices raw ↔ x ∈ raw) ∧
    (raw = [] → choose_next_expert expert_choices raw =
      (if "generalist" ∈ expert_choices then ["generalist"] else expert_choices)) ∧
    (consult_expert expert_choices raw active).answered_by =
      some (choose_next_expert expert_choices raw) := by
  by_cases hraw : raw = []
  · subst hraw
    have hde : (List.dedup ([] : List String)).isEmpty = true := by simp
    refine ⟨?_, ?_, ?_, fun h => absurd rfl h, fun _ => ?_, rfl⟩ <;>
      simp only [choose_next_expert, hde, if_true]
    · by_cases hg : "generalist" ∈ expert_choices <;> simp [hg, hnodup]
    · by_cases hg : "generalist" ∈ expert_choices <;> simp [hg, hne]
    · by_cases hg : "generalist" ∈ expert_choices <;> simp [hg]
  · have hde : (raw.dedup).isEmpty = false := by
      rw [List.isEmpty_eq_false_iff_exists_mem]
      rcases raw with _ | ⟨x, rest⟩
      · exact absurd rfl hraw
      · exact ⟨x, by simp [List.mem_dedup]⟩
    refine ⟨?_, ?_, ?_, fun _ x => ?_, fun h => absurd h hraw, rfl⟩ <;>
      simp only [choose_next_expert, hde, if_false, Bool.false_eq_true]
    · exact List.nodup_dedup raw
    · intro h
      rw [← List.dedup_eq_nil] at hraw
      exact hraw h
    · intro x hx
      exact hsub x (List.mem_dedup.mp hx)
    · exact List.mem_dedup

/-- Witness for C7: the routing decision on a concrete expert list, with a
duplicated raw choice and with an empty raw choice. -/
theorem consult_expert_routing_witness :
    (choose_next_expert ["generalist", "cardiology"] ["cardiology", "cardiology"]).Nodup ∧
    choose_next_expert ["generalist", "cardiology"] ["cardiology", "cardiology"] ≠ [] ∧
    (∀ x ∈ choose_next_expert ["generalist", "cardiology"] ["cardiology", "cardiology"],
      x ∈ (["generalist", "cardiology"] : List String)) := by
  have h := consult_expert_routing ["generalist", "cardiology"]
    ["cardiology", "cardiology"] c2Crit (by decide) (by decide) (by decide)
  exact ⟨h.1, h.2.1, h.2.2.1⟩

/- ----------------------------------------------------------------- -/
/- Exponential-backoff retry (C8).                                    -/
/- ----------------------------------------------------------------- -/

theorem retryLoop_waits_shape {α : Type} (mr bw : Nat) (f : Nat → CallOutcome α) :
    ∀ fuel attempt, ∃ m,
      (retryLoop mr bw f fuel attempt).waits =
        (List.range m).map (fun i => bw * 2 ^ (attempt + i)) := by
  intro fuel
  induction fuel with
  | zero => intro attempt; exact ⟨0, by simp [retryLoop]⟩
  | succ fuel ih =>
    intro attempt
    cases hf : f attempt with
    | success v => exact ⟨0, by simp [retryLoop, hf]⟩
    | otherFailure => exact ⟨0, by simp [retryLoop, hf]⟩
    | rateLimited =>
      by_cases hb : attempt + 1 > mr
      · exact ⟨0, by simp [retryLoop, hf, hb]⟩
      · obtain ⟨m, hm⟩ := ih (attempt + 1)
        refine ⟨m + 1, ?_⟩
        simp only [retryLoop, hf, hb, if_false]
        rw [hm, List.range_succ_eq_map, List.map_cons, List.map_map, Nat.add_zero]
        refine congrArg₂ List.cons rfl (List.map_congr_left ?_)
        intro i _
        simp only [Function.comp_apply]
        rw [show attempt + 1 + i = attempt + (i + 1) by omega]

theorem retryLoop_ncalls_le {α : Type} (mr bw : Nat) (f : Nat → CallOutcome α) :
    ∀ fuel attempt, (retryLoop mr bw f fuel attempt).ncalls ≤ fuel := by
  intro fuel
  induction fuel with
  | zero => intro attempt; simp [retryLoop]
  | succ fuel ih =>
    intro attempt
    cases hf : f attempt with
    | success v => simp [retryLoop, hf]
    | otherFailure => simp [retryLoop, hf]
    | rateLimited =>
      by_cases hb : attempt + 1 > mr
      · simp [retryLoop, hf, hb]
      · have := ih (attempt + 1)
        simp only [retryLoop, hf, hb, if_false]
        omega

theorem retryLoop_allRL {α : Type} (mr bw : Nat) (f : Nat → CallOutcome α) :
    ∀ fuel attempt, fuel = mr + 1 - attempt → attempt ≤ mr →
      (∀ k, attempt ≤ k → k ≤ mr → f k = .rateLimited) →
      (retryLoop mr bw f fuel attempt).result = .rateLimitRaised ∧
      (retryLoop mr bw f fuel attempt).ncalls = fuel := by
  intro fuel
  induction fuel with
  | zero =>
    intro attempt hfa ha _
    omega
  | succ fuel ih =>
    intro attempt hfa ha hRL
    have hf : f attempt = .rateLimited := hRL attempt le_rfl ha
    by_cases hb : attempt + 1 > mr
    · have hfuel : fuel = 0 := by omega
      subst hfuel
      simp [retryLoop, hf, hb]
    · have h1 := ih (attempt + 1) (by omega) (by omega)
        (fun k hk1 hk2 => hRL k (by omega) hk2)
      constructor
      · simp [retryLoop, hf, hb, h1.1]
      · simp only [retryLoop, hf, hb, if_false]
        simp [h1.2]

theorem retryLoop_skip_to {α : Type} (mr bw : Nat) (f : Nat → CallOutcome α) :
    ∀ fuel attempt k, fuel = mr + 1 - attempt → attempt ≤ k → k ≤ mr →
      (∀ j, attempt ≤ j → j < k → f j = .rateLimited) →
      ((∀ v, f k = .success v →
        (retryLoop mr bw f fuel attempt).result = .ok v ∧
        (retryLoop mr bw f fuel attempt).ncalls = k + 1 - attempt) ∧
       (f k = .otherFailure →
        (retryLoop mr bw f fuel attempt).result = .otherRaised ∧
        (retryLoop mr bw f fuel attempt).ncalls = k + 1 - attempt)) := by
  intro fuel
  induction fuel with
  | zero =>
    intro attempt k hfa hak hkm _
    omega
  | succ fuel ih =>
    intro attempt k hfa hak hkm hpre
    by_cases hek : attempt = k
    · subst hek
      constructor
      · intro v hf
        refine ⟨by simp [retryLoop, hf], by simp [retryLoop, hf]⟩
      · intro hf
        refine ⟨by simp [retryLoop, hf], by simp [retryLoop, hf]⟩
    · have hlt : attempt < k := lt_of_le_of_ne hak hek
      have hf : f attempt = .rateLimited := hpre attempt le_rfl hlt
      have hb : ¬ attempt + 1 > mr := by omega
      have hrec := ih (attempt + 1) k (by omega) (by omega) hkm
        (fun j h1 h2 => hpre j (by omega) h2)
      constructor
      · intro v hfk
        have hr := hrec.1 v hfk
        constructor
        · simp [retryLoop, hf, hb, hr.1]
        · simp only [retryLoop, hf, hb, if_false]
          simp [hr.2]
          omega
      · intro hfk
        have hr := hrec.2 hfk
        constructor
        · simp [retryLoop, hf, hb, hr.1]
        · simp only [retryLoop, hf, hb, if_false]
          simp [hr.2]
          omega

/-- C8: for the exponential-backoff wrapper with parameters max_retries and
base_wait applied to a function whose k-th invocation (0-based) behaves like
`f k`: the i-th sleep (0-based, i.e. after the (i+1)-th rate-limited
attempt) lasts `base_wait * 2 ^ i` seconds; the wrapped function is invoked
at most max_retries + 1 times; if every allowed attempt rate-limits, the
wrapper re-raises the rate-limit error after exactly max_retries + 1
invocations; a non-rate-limit exception on the first non-rate-limited
attempt propagates immediately (no further invocation, no retry of it); and
a success returns the wrapped function's value unchanged. -/
theorem retry_with_exponential_backoff_spec {α : Type} (max_retries base_wait : Nat)
    (f : Nat → CallOutcome α) :
    (retry_with_exponential_backoff max_retries base_wait f).waits =
      (List.range (retry_with_exponential_backoff max_retries base_wait f).waits.length).map
        (fun i => base_wait * 2 ^ i) ∧
    (retry_with_exponential_backoff max_retries base_wait f).ncalls ≤ max_retries + 1 ∧
    ((∀ k, k ≤ max_retries → f k = .rateLimited) →
      (retry_with_exponential_backoff max_retries base_wait f).result = .rateLimitRaised ∧
      (retry_with_exponential_backoff max_retries base_wait f).ncalls = max_retries + 1) ∧
    (∀ k, k ≤ max_retries → (∀ j, j < k → f j = .rateLimited) → f k = .otherFailure →
      (retry_with_exponential_backoff max_retries base_wait f).result = .otherRaised ∧
      (retry_with_exponential_backoff max_retries base_wait f).ncalls = k + 1) ∧
    (∀ k v, k ≤ max_retries → (∀ j, j < k → f j = .rateLimited) → f k = .success v →
      (retry_with_exponential_backoff max_retries base_wait f).result = .ok v ∧
      (retry_with_exponential_backoff max_retries base_wait f).ncalls = k + 1) := by
  refine ⟨?_, ?_, ?_, ?_, ?_⟩
  · obtain ⟨m, hm⟩ := retryLoop_waits_shape max_retries base_wait f (max_retries + 1) 0
    simp only [Nat.zero_add] at hm
    rw [show retry_with_exponential_backoff max_retries base_wait f =
      retryLoop max_retries base_wait f (max_retries + 1) 0 from rfl, hm]
    simp
  · exact retryLoop_ncalls_le max_retries base_wait f (max_retries + 1) 0
  · intro hRL
    exact retryLoop_allRL max_retries base_wait f (max_retries + 1) 0 (by omega)
      (by omega) (fun k _ hk => hRL k hk)
  · intro k hk hpre hfk
    have h := (retryLoop_skip_to max_retries base_wait f (max_retries + 1) 0 k
      (by omega) (by omega) hk (fun j _ hj => hpre j hj)).2 hfk
    exact ⟨h.1, by rw [show retry_with_exponential_backoff max_retries base_wait f =
      retryLoop max_retries base_wait f (max_retries + 1) 0 from rfl, h.2]; omega⟩
  · intro k v hk hpre hfk
    have h := (retryLoop_skip_to max_retries base_wait f (max_retries + 1) 0 k
      (by omega) (by omega) hk (fun j _ hj => hpre j hj)).1 v hfk
    exact ⟨h.1, by rw [show retry_with_exponential_backoff max_retries base_wait f =
      retryLoop max_retries base_wait f (max_retries + 1) 0 from rfl, h.2]; omega⟩

/-- Witness for C8: with max_retries = 2, a function that always
rate-limits is invoked exactly 3 times, the rate-limit error is re-raised,
and the sleeps are 1, 2 seconds. -/
theorem retry_with_exponential_backoff_spec_witness :
    (retry_with_exponential_backoff 2 1
      (fun _ => (CallOutcome.rateLimited : CallOutcome Nat))).result =
        RunResult.rateLimitRaised ∧
    (retry_with_exponential_backoff 2 1
      (fun _ => (CallOutcome.rateLimited : CallOutcome Nat))).ncalls = 2 + 1 := by
  have h := retry_with_exponential_backoff_spec 2 1
    (fun _ => (CallOutcome.rateLimited : CallOutcome Nat))
  exact h.2.2.1 (fun k _ => rfl)

/- ----------------------------------------------------------------- -/
/- Decimal representation: distinct indices give distinct keys (C9).  -/
/- ----------------------------------------------------------------- -/

theorem toDigitsCore_eq_decimalDigits :
    ∀ (fuel n : Nat) (ds : List Char), n < fuel →
      Nat.toDigitsCore 10 fuel n ds = decimalDigits n ++ ds := by
  intro fuel
  induction fuel with
  | zero => intro n ds h; omega
  | succ fuel ih =>
    intro n ds h
    by_cases h10 : n < 10
    · have hdiv : n / 10 = 0 := by omega
      rw [show Nat.toDigitsCore 10 (fuel + 1) n ds = Nat.digitChar (n % 10) :: ds from by
        simp [Nat.toDigitsCore, hdiv]]
      rw [decimalDigits]
      simp [h10, Nat.mod_eq_of_lt h10]
    · have hdiv : ¬ n / 10 = 0 := by omega
      rw [show Nat.toDigitsCore 10 (fuel + 1) n ds =
          Nat.toDigitsCore 10 fuel (n / 10) (Nat.digitChar (n % 10) :: ds) from by
        simp [Nat.toDigitsCore, hdiv]]
      rw [ih (n / 10) _ (by omega)]
      rw [show decimalDigits n = decimalDigits (n / 10) ++ [Nat.digitChar (n % 10)] from by
        conv_lhs => rw [decimalDigits]
        simp [h10]]
      simp

theorem decimalDigits_lt (n : Nat) (h : n < 10) :
    decimalDigits n = [Nat.digitChar n] := by
  rw [decimalDigits]
  simp [h]

theorem decimalDigits_ge (n : Nat) (h : ¬ n < 10) :
    decimalDigits n = decimalDigits (n / 10) ++ [Nat.digitChar (n % 10)] := by
  conv_lhs => rw [decimalDigits]
  simp [h]

theorem decimalDigits_ne_nil (n : Nat) : decimalDigits n ≠ [] := by
  by_cases h : n < 10
  · rw [decimalDigits_lt n h]
    simp
  · rw [decimalDigits_ge n h]
    simp

theorem digitChar_inj_lt : ∀ a < 10, ∀ b < 10,
    Nat.digitChar a = Nat.digitChar b → a = b := by decide

theorem decimalDigits_inj (m : Nat) :
    ∀ n : Nat, decimalDigits m = decimalDigits n → m = n := by
  induction m using Nat.strong_induction_on with
  | _ m ih =>
    intro n h
    by_cases hm : m < 10 <;> by_cases hn : n < 10
    · rw [decimalDigits_lt m hm, decimalDigits_lt n hn] at h
      simp at h
      exact digitChar_inj_lt m hm n hn h
    · exfalso
      rw [decimalDigits_lt m hm, decimalDigits_ge n hn] at h
      have hlen := congrArg List.length h
      simp only [List.length_append, List.length_cons, List.length_nil] at hlen
      exact absurd (List.length_eq_zero.mp (by omega)) (decimalDigits_ne_nil (n / 10))
    · exfalso
      rw [decimalDigits_ge m hm, decimalDigits_lt n hn] at h
      have hlen := congrArg List.length h
      simp only [List.length_append, List.length_cons, List.length_nil] at hlen
      exact absurd (List.length_eq_zero.mp (by omega)) (decimalDigits_ne_nil (m / 10))
    · rw [decimalDigits_ge m hm, decimalDigits_ge n hn] at h
      have h' := congrArg List.reverse h
      simp at h'
      have hmod : m % 10 = n % 10 :=
        digitChar_inj_lt (m % 10) (by omega) (n % 10) (by omega) h'.1
      have hdd : decimalDigits (m / 10) = decimalDigits (n / 10) := h'.2
      have hdiv : m / 10 = n / 10 :=
        ih (m / 10) (by omega) (n / 10) hdd
      omega

theorem natRepr_eq_decimalDigits (n : Nat) :
    Nat.repr n = (decimalDigits n).asString := by
  rw [show Nat.repr n = (Nat.toDigitsCore 10 (n + 1) n []).asString from rfl]
  rw [toDigitsCore_eq_decimalDigits (n + 1) n [] (Nat.lt_succ_self n)]
  simp

theorem natRepr_inj (m n : Nat) (h : Nat.repr m = Nat.repr n) : m = n := by
  rw [natRepr_eq_decimalDigits, natRepr_eq_decimalDigits] at h
  have hd := congrArg String.data h
  exact decimalDigits_inj m n hd

theorem ai_key_nat_inj (mrn protocol : String) (i j : Nat)
    (h : ai_key mrn protocol (Int.ofNat i) = ai_key mrn protocol (Int.ofNat j)) :
    i = j := by
  unfold ai_key at h
  rw [show toString (Int.ofNat i) = Nat.repr i from rfl,
    show toString (Int.ofNat j) = Nat.repr j from rfl] at h
  have hd := congrArg String.data h
  simp only [String.data_append] at hd
  have hd2 : (Nat.repr i).data = (Nat.repr j).data :=
    List.append_cancel_left hd
  apply natRepr_inj
  rw [show Nat.repr i = List.asString (Nat.repr i).data from rfl,
    show Nat.repr j = List.asString (Nat.repr j).data from rfl, hd2]

/- ----------------------------------------------------------------- -/
/- The append-only AI-output store (C9).                              -/
/- ----------------------------------------------------------------- -/

theorem lookup_map_set_ai (l : List (String × MasterEntry)) (mk : String) (v : Int) :
    (l.map (fun kv =>
      if kv.1 = mk then (kv.1, { kv.2 with ai_count := v }) else kv)).lookup mk =
      (l.lookup mk).map (fun e => { e with ai_count := v }) := by
  induction l with
  | nil => simp
  | cons hd tl ih =>
    obtain ⟨k0, e0⟩ := hd
    by_cases hk : k0 = mk
    · subst hk
      simp only [List.map_cons, eq_self_iff_true, if_true]
      rw [List.lookup_cons_self, List.lookup_cons_self]
      rfl
    · have hb : (mk == k0) = false := beq_eq_false_iff_ne.mpr (fun he => hk he.symm)
      simp only [List.map_cons, if_neg hk]
      rw [List.lookup, List.lookup, hb, ih]

theorem map_set_ai_of_lookup_none (l : List (String × MasterEntry)) (mk : String)
    (v : Int) (h : l.lookup mk = none) :
    l.map (fun kv =>
      if kv.1 = mk then (kv.1, { kv.2 with ai_count := v }) else kv) = l := by
  induction l with
  | nil => rfl
  | cons hd tl ih =>
    obtain ⟨k0, e0⟩ := hd
    rw [List.lookup] at h
    by_cases hk : (mk == k0) = true
    · rw [hk] at h
      exact absurd h (by simp)
    · rw [Bool.not_eq_true] at hk
      rw [hk] at h
      have hne : ¬ k0 = mk := fun he => by
        rw [he] at hk
        exact absurd hk (by simp)
      simp [hne, ih h]

theorem lookup_filter_ne (kv : List (String × String)) (k key : String)
    (hk : ¬ key = k) :
    (kv.filter (fun p => !(p.1 = k : Bool))).lookup key = kv.lookup key := by
  induction kv with
  | nil => simp
  | cons hd tl ih =>
    obtain ⟨k0, v0⟩ := hd
    by_cases h0 : k0 = k
    · subst h0
      have hb : (key == k0) = false := beq_eq_false_iff_ne.mpr hk
      simp [List.filter, List.lookup, hb, ih]
    · simp only [List.filter, List.lookup]
      by_cases hkey : (key == k0) = true
      · simp [h0, hkey, List.lookup]
      · rw [Bool.not_eq_true] at hkey
        simp [h0, hkey, List.lookup, ih]

theorem lookup_kvSet (kv : List (String × String)) (k v key : String) :
    (kvSet kv k v).lookup key = if key = k then some v else kv.lookup key := by
  unfold kvSet
  by_cases hk : key = k
  · subst hk
    simp [List.lookup]
  · have hb : (key == k) = false := beq_eq_false_iff_ne.mpr hk
    simp only [List.lookup, hb, if_neg hk]
    exact lookup_filter_ne kv k key hk

theorem add_ai_output_step (store : RedisStore) (mrn protocol r : String)
    (e : MasterEntry)
    (h : store.hashes.lookup (master_key mrn protocol) = some e) :
    add_ai_output store mrn protocol r =
      (e.ai_count + 1,
        { hashes := store.hashes.map (fun kv =>
            if kv.1 = master_key mrn protocol then
              (kv.1, { kv.2 with ai_count := e.ai_count + 1 }) else kv),
          kv := kvSet store.kv (ai_key mrn protocol (e.ai_count + 1)) r }) := by
  unfold add_ai_output init_master_key hincrby_ai
  simp [h]

theorem add_ai_output_first (store : RedisStore) (mrn protocol r : String)
    (h : store.hashes.lookup (master_key mrn protocol) = none) :
    add_ai_output store mrn protocol r =
      (0,
        { hashes := (master_key mrn protocol,
            ({ ai_count := 0, human_count := -1 } : MasterEntry)) :: store.hashes,
          kv := kvSet store.kv (ai_key mrn protocol 0) r }) := by
  unfold add_ai_output init_master_key hincrby_ai
  simp only [h, Option.isSome_none, Bool.false_eq_true, if_false]
  simp [List.lookup, map_set_ai_of_lookup_none store.hashes _ _ h,
    show (-1 : Int) + 1 = 0 by ring]

theorem ai_key_shift (mrn protocol : String) (c : Int) (i : Nat) :
    ai_key mrn protocol (c + 1 + 1 + (i : Int)) =
      ai_key mrn protocol (c + 1 + ((i + 1 : Nat) : Int)) := by
  congr 1
  push_cast
  ring

theorem add_ai_outputs_run (mrn protocol : String) :
    ∀ (results : List String) (store : RedisStore) (c : Int),
      ((store.hashes.lookup (master_key mrn protocol) = none ∧ c = -1) ∨
        (∃ e, store.hashes.lookup (master_key mrn protocol) = some e ∧
          e.ai_count = c)) →
      (∀ i j : Nat, i < results.length → j < results.length →
        ai_key mrn protocol (c + 1 + i) = ai_key mrn protocol (c + 1 + j) → i = j) →
      (add_ai_outputs store mrn protocol results).1 =
        (List.range results.length).map (fun i : Nat => c + 1 + (i : Int)) ∧
      (∀ key, (∀ i : Nat, i < results.length → key ≠ ai_key mrn protocol (c + 1 + i)) →
        ((add_ai_outputs store mrn protocol results).2).kv.lookup key =
          store.kv.lookup key) ∧
      (∀ i : Nat, ∀ hi : i < results.length,
        ((add_ai_outputs store mrn protocol results).2).kv.lookup
          (ai_key mrn protocol (c + 1 + i)) = some (results.get ⟨i, hi⟩)) := by
  intro results
  induction results with
  | nil =>
    intro store c hc hinj
    refine ⟨by simp [add_ai_outputs], fun key _ => by simp [add_ai_outputs],
      fun i hi => absurd hi (by simp)⟩
  | cons r rs ih =>
    intro store c hc hinj
    have hstep : add_ai_output store mrn protocol r =
        (c + 1, (add_ai_output store mrn protocol r).2) ∧
        (∃ e', ((add_ai_output store mrn protocol r).2).hashes.lookup
            (master_key mrn protocol) = some e' ∧ e'.ai_count = c + 1) ∧
        ((add_ai_output store mrn protocol r).2).kv =
          kvSet store.kv (ai_key mrn protocol (c + 1)) r := by
      rcases hc with ⟨habs, rfl⟩ | ⟨e, he, hec⟩
      · rw [add_ai_output_first store mrn protocol r habs]
        refine ⟨by norm_num, ⟨{ ai_count := 0, human_count := -1 }, ?_, by norm_num⟩, by norm_num⟩
        simp [List.lookup]
      · rw [add_ai_output_step store mrn protocol r e he]
        refine ⟨by rw [hec], ⟨{ e with ai_count := e.ai_count + 1 }, ?_, by simp [hec]⟩, by rw [hec]⟩
        simp [lookup_map_set_ai, he]
    obtain ⟨he', hlk, hkv⟩ := hstep
    have hinj' : ∀ i j : Nat, i < rs.length → j < rs.length →
        ai_key mrn protocol (c + 1 + 1 + i) = ai_key mrn protocol (c + 1 + 1 + j) →
        i = j := by
      intro i j hi hj hk
      rw [ai_key_shift, ai_key_shift] at hk
      have := hinj (i + 1) (j + 1) (by simpa using hi) (by simpa using hj) hk
      omega
    have hrec := ih (add_ai_output store mrn protocol r).2 (c + 1) (Or.inr hlk) hinj'
    have hunfold : add_ai_outputs store mrn protocol (r :: rs) =
        ((add_ai_output store mrn protocol r).1 ::
          (add_ai_outputs (add_ai_output store mrn protocol r).2 mrn protocol rs).1,
         (add_ai_outputs (add_ai_output store mrn protocol r).2 mrn protocol rs).2) := rfl
    refine ⟨?_, ?_, ?_⟩
    · rw [hunfold]
      simp only
      rw [show (add_ai_output store mrn protocol r).1 = c + 1 from congrArg Prod.fst he',
        hrec.1, List.length_cons, List.range_succ_eq_map, List.map_cons, List.map_map]
      refine congrArg₂ List.cons (by push_cast; ring) (List.map_congr_left ?_)
      intro i _
      simp only [Function.comp_apply]
      push_cast
      ring
    · intro key hkey
      rw [hunfold]
      simp only
      rw [hrec.2.1 key ?_, hkv, lookup_kvSet]
      · rw [if_neg ?_]
        intro he
        exact hkey 0 (by simp) (by rw [he]; congr 1; push_cast; ring)
      · intro i hi
        rw [ai_key_shift]
        exact hkey (i + 1) (by simpa using hi)
    · intro i hi
      rw [hunfold]
      simp only
      match i with
      | 0 =>
        rw [hrec.2.1 (ai_key mrn protocol (c + 1 + ((0 : Nat) : Int))) ?_, hkv,
          lookup_kvSet]
        · rw [if_pos (by congr 1; push_cast; ring)]
          rfl
        · intro j hj
          rw [ai_key_shift]
          intro he
          have := hinj 0 (j + 1) (by simp) (by simpa using hj) he
          omega
      | i + 1 =>
        rw [← ai_key_shift]
        exact hrec.2.2 i (by simpa using hi)

/-- C9: for every (mrn, protocol) pair and sequence of `add_ai_output` calls
against a store whose master key is initially absent, the i-th call (1-based)
returns index i-1; the keys `mrn_protocol_output_{index}` used by distinct
calls are distinct; and after the whole sequence each call's payload is
still stored under its own key — the store is append-only, no call ever
overwrites a previously written AI output. -/
theorem add_ai_output_append_only (store : RedisStore) (mrn protocol : String)
    (results : List String)
    (habsent : store.hashes.lookup (master_key mrn protocol) = none) :
    (add_ai_outputs store mrn protocol results).1 =
      (List.range results.length).map (fun i : Nat => (i : Int)) ∧
    (∀ i j : Nat, i < results.length → j < results.length → i ≠ j →
      ai_key mrn protocol (i : Int) ≠ ai_key mrn protocol (j : Int)) ∧
    (∀ i : Nat, ∀ hi : i < results.length,
      ((add_ai_outputs store mrn protocol results).2).kv.lookup
        (ai_key mrn protocol (i : Int)) = some (results.get ⟨i, hi⟩)) := by
  have hinj : ∀ i j : Nat, i < results.length → j < results.length →
      ai_key mrn protocol ((-1 : Int) + 1 + i) =
        ai_key mrn protocol ((-1 : Int) + 1 + j) → i = j := by
    intro i j _ _ h
    rw [show ((-1 : Int) + 1 + (i : Int)) = (i : Int) by ring,
      show ((-1 : Int) + 1 + (j : Int)) = (j : Int) by ring] at h
    exact ai_key_nat_inj mrn protocol i j h
  have hrun := add_ai_outputs_run mrn protocol results store (-1)
    (Or.inl ⟨habsent, rfl⟩) hinj
  refine ⟨?_, ?_, ?_⟩
  · rw [hrun.1]
    refine List.map_congr_left ?_
    intro i _
    push_cast
    ring
  · intro i j _ _ hne heq
    exact hne (ai_key_nat_inj mrn protocol i j heq)
  · intro i hi
    have h := hrun.2.2 i hi
    rwa [show ((-1 : Int) + 1 + (i : Int)) = (i : Int) by ring] at h

/-- Witness for C9: two calls against an empty store return indices 0, 1 and
both payloads remain retrievable under their own keys. -/
theorem add_ai_output_append_only_witness :
    (add_ai_outputs { hashes := [], kv := [] } "m" "p" ["r0", "r1"]).1 =
      (List.range (["r0", "r1"] : List String).length).map (fun i : Nat => (i : Int)) ∧
    ((add_ai_outputs { hashes := [], kv := [] } "m" "p" ["r0", "r1"]).2).kv.lookup
        (ai_key "m" "p" ((0 : Nat) : Int)) =
      some ((["r0", "r1"] : List String).get ⟨0, by decide⟩) := by
  have h := add_ai_output_append_only { hashes := [], kv := [] } "m" "p"
    ["r0", "r1"] rfl
  exact ⟨h.1, h.2.2 0 (by decide)⟩

end TrialMatcher
